import Mathlib

/-!
Verification of the geospatial layer-store core of `project/app.py`:
schema normalization, bounding-box and radius filters, haversine distance,
circle-polygon generation and GeoJSON projection.

Tables are modelled as pandas-style dataframes: a list of column names
together with a list of rows, each row a list of cell values aligned with
the column list.  Cell values are rationals (CSV numerics / python floats),
strings, the missing value (NaN), or a real number (computed distance
columns).  Query parameters that feed the trigonometric distance code are
real numbers; comparisons that pandas performs against NaN are false, as in
pandas.
-/

namespace App

/-- A cell value of a dataframe: a numeric value, a string, the missing
value (NaN), or a computed real (the `distance_m` column). -/
inductive Value : Type
  | num (q : ℚ)
  | str (s : String)
  | missing
  | real (x : ℝ)

/-- A dataframe: named columns and rows of cells, positionally aligned. -/
structure DF : Type where
  cols : List String
  rows : List (List Value)

/-- Well-formedness: every row has one cell per column. -/
def DF.WF (df : DF) : Prop :=
  ∀ r ∈ df.rows, r.length = df.cols.length

/-- Index of the first column with the given name (pandas label lookup). -/
def colIdx : List String → String → Option Nat
  | [], _ => none
  | c :: cs, n => if c = n then some 0 else (colIdx cs n).map (· + 1)

/-- The cell of a row under a column name; missing if the column is absent. -/
def cellOfRow (cols : List String) (r : List Value) (name : String) : Value :=
  match colIdx cols name with
  | some i => r.getD i Value.missing
  | none => Value.missing

/-- A whole column of the dataframe, as `df[name]` for a unique label.
Pandas returns every column matching a duplicated label (a DataFrame, not a
Series); the coercion reads in `normalize_columns` guard that case with
`hasDupLabel`, where the program raises. -/
def getCol (df : DF) (name : String) : List Value :=
  df.rows.map (fun r => cellOfRow df.cols r name)

/-- `df[name] = vals`: overwrite the first column with that name, or append
a new column when the name is absent (pandas assignment semantics). -/
def setColumn (df : DF) (name : String) (vals : List Value) : DF :=
  match colIdx df.cols name with
  | some i => { cols := df.cols, rows := df.rows.zipWith (fun r v => r.set i v) vals }
  | none => { cols := df.cols ++ [name], rows := df.rows.zipWith (fun r v => r ++ [v]) vals }

/-- `df[names]`: column projection in the given order. -/
def selectCols (df : DF) (names : List String) : DF :=
  { cols := names, rows := df.rows.map (fun r => names.map (fun c => cellOfRow df.cols r c)) }

/-- NaN test, as `pd.isna` on a cell. -/
def Value.isMissing : Value → Bool
  | .missing => true
  | _ => false

/-- Pandas `Series.between(lo, hi)` on one cell: inclusive bounds, false on
anything that is not a numeric value (NaN comparisons are false). -/
def vbetween (v : Value) (lo hi : ℚ) : Bool :=
  match v with
  | .num q => decide (lo ≤ q ∧ q ≤ hi)
  | _ => false

/-- `pd.to_numeric(·, errors="coerce")` on one cell, with the string-to-number
conversion supplied as a parameter `parseNum`: numbers pass through,
unparseable strings and missing values coerce to missing. -/
def toNumeric (parseNum : String → Option ℚ) : Value → Value
  | .num q => .num q
  | .real x => .real x
  | .str s => match parseNum s with
    | some q => .num q
    | none => .missing
  | .missing => .missing

/-- Drop leading and trailing whitespace characters, as python `str.strip`. -/
def trimChars (l : List Char) : List Char :=
  ((l.dropWhile Char.isWhitespace).reverse.dropWhile Char.isWhitespace).reverse

/-- `c.strip().lower()` on a column name (ASCII lowering, which covers every
recognized alias). -/
def pyStripLower (s : String) : String :=
  ⟨(trimChars s.data).map Char.toLower⟩

/-- `df.rename(columns={c: c.strip().lower() for c in df.columns})`. -/
def renameCols (df : DF) : DF :=
  { cols := df.cols.map pyStripLower, rows := df.rows }

/-- Accepted latitude column aliases, in the order of the source tuple. -/
def latAliases : List String := ["lat", "latitude", "y"]

/-- Accepted longitude column aliases, in the order of the source tuple. -/
def lonAliases : List String := ["lon", "lng", "longitude", "x"]

/-- `next((c for c in df.columns if c in aliases), None)`: the first column
name that is one of the aliases. -/
def findCol (df : DF) (aliases : List String) : Option String :=
  df.cols.find? (fun c => aliases.contains c)

/-- Whether either coercion read `df[lat_col]` / `df[lon_col]` hits a
duplicated label.  Duplicates arise when two raw names strip/lower to the
same label (rename does not deduplicate); `df[label]` then returns a
two-column frame and `pd.to_numeric` raises, aborting normalization with a
non-schema error.  The `lon` read happens after the `lat` assignment, but
that assignment can only add or overwrite the label `lat`, which is not a
longitude alias, so both counts are taken on the renamed frame. -/
def hasDupLabel (df : DF) (latc lonc : String) : Bool :=
  decide (1 < df.cols.count latc) || decide (1 < df.cols.count lonc)

/-- The two coercion assignments
`df["lat"] = pd.to_numeric(df[lat_col], errors="coerce")` and
`df["lon"] = pd.to_numeric(df[lon_col], errors="coerce")`, in source order. -/
def coerceLatLon (parseNum : String → Option ℚ) (df : DF) (latc lonc : String) : DF :=
  let df1 := setColumn df "lat" ((getCol df latc).map (toNumeric parseNum))
  setColumn df1 "lon" ((getCol df1 lonc).map (toNumeric parseNum))

/-- `df.dropna(subset=["lat", "lon"])`. -/
def dropnaLatLon (df : DF) : DF :=
  { cols := df.cols,
    rows := df.rows.filter (fun r =>
      !(cellOfRow df.cols r "lat").isMissing && !(cellOfRow df.cols r "lon").isMissing) }

/-- `df[(df["lat"].between(-90, 90)) & (df["lon"].between(-180, 180))]`. -/
def rangeFilter (df : DF) : DF :=
  { cols := df.cols,
    rows := df.rows.filter (fun r =>
      vbetween (cellOfRow df.cols r "lat") (-90) 90 &&
      vbetween (cellOfRow df.cols r "lon") (-180) 180) }

/-- The row-cleaning stage: drop unparseable coordinates, then keep rows
whose coordinates are inside the valid ranges. -/
def cleanRows (df : DF) : DF :=
  rangeFilter (dropnaLatLon df)

/-- `if "name" not in df.columns: df["name"] = ""`. -/
def addName (df : DF) : DF :=
  if "name" ∈ df.cols then df
  else setColumn df "name" (df.rows.map (fun _ => Value.str ""))

/-- `if "id" not in df.columns: df = df.reset_index(drop=True); df["id"] = df.index + 1`. -/
def addId (df : DF) : DF :=
  if "id" ∈ df.cols then df
  else setColumn df "id" ((List.range df.rows.length).map (fun n : ℕ => Value.num ((n : ℚ) + 1)))

/-- Synthesize the `name` column (empty strings) when absent, then the `id`
column (1-based positional integers) when absent. -/
def addNameId (df : DF) : DF :=
  addId (addName df)

/-- Final column reordering: `id`, `name`, `lat`, `lon` first, then the
remaining columns in their original relative order. -/
def reorderCols (df : DF) : DF :=
  let front := (["id", "name", "lat", "lon"]).filter (fun c => c ∈ df.cols)
  let rest := df.cols.filter (fun c => c ∉ front)
  selectCols df (front ++ rest)

/-- `normalize_columns`: the schema normalizer.  Fails (raises `ValueError`)
when no latitude-like or longitude-like column can be identified, and fails
with a pandas `TypeError` (caught by the import handler as a generic import
error) when a coercion read hits a duplicated renamed label. -/
def normalize_columns (parseNum : String → Option ℚ) (df0 : DF) : Except String DF :=
  let df := renameCols df0
  match findCol df latAliases, findCol df lonAliases with
  | some latc, some lonc =>
      if hasDupLabel df latc lonc then
        .error "arg must be a list, tuple, 1-d array, or Series"
      else
        .ok (reorderCols (addNameId (cleanRows (coerceLatLon parseNum df latc lonc))))
  | _, _ => .error "CSV must include latitude/lat and longitude/lon columns."

/-- The normalization step of `import_csv`: run `normalize_columns`, then
reject an empty result (`if df.empty: return err(...)`). -/
def import_normalize (parseNum : String → Option ℚ) (df0 : DF) : Except String DF :=
  match normalize_columns parseNum df0 with
  | .error e => .error e
  | .ok df => if df.rows.isEmpty then
      .error "No valid rows with lat/lon found after cleaning."
    else .ok df

/-- Whether an `Except` result is an error. -/
def isError {ε α : Type} : Except ε α → Bool
  | .error _ => true
  | .ok _ => false

/-- The rows that survive the cleaning stage of normalization (empty when no
alias pair is found, in which case normalization fails before cleaning). -/
def cleanedRows (parseNum : String → Option ℚ) (df0 : DF) : List (List Value) :=
  let df := renameCols df0
  match findCol df latAliases, findCol df lonAliases with
  | some latc, some lonc => (cleanRows (coerceLatLon parseNum df latc lonc)).rows
  | _, _ => []

/-- `series >= bound` on one cell: false on non-numeric cells (NaN). -/
def vge (v : Value) (b : ℚ) : Bool :=
  match v with
  | .num q => decide (b ≤ q)
  | _ => false

/-- `series <= bound` on one cell: false on non-numeric cells (NaN). -/
def vle (v : Value) (b : ℚ) : Bool :=
  match v with
  | .num q => decide (q ≤ b)
  | _ => false

/-- `bbox_filter(df, (west, south, east, north))`: antimeridian-aware
bounding-box filter.  When `east < west` the box wraps: the rows with
`lon >= west` are emitted first, then the rows with `lon <= east`
(`pd.concat([left, right], ignore_index=True)`). -/
def bbox_filter (df : DF) (west south east north : ℚ) : DF :=
  if east < west then
    let left := df.rows.filter (fun r =>
      vge (cellOfRow df.cols r "lon") west &&
      vbetween (cellOfRow df.cols r "lat") south north)
    let right := df.rows.filter (fun r =>
      vle (cellOfRow df.cols r "lon") east &&
      vbetween (cellOfRow df.cols r "lat") south north)
    { cols := df.cols, rows := left ++ right }
  else
    { cols := df.cols,
      rows := df.rows.filter (fun r =>
        vbetween (cellOfRow df.cols r "lon") west east &&
        vbetween (cellOfRow df.cols r "lat") south north) }

/-- The demo layer pre-seeded into the store:
`{"id": 1, "name": "SJSU", "lat": 37.3353, "lon": -121.8813}`. -/
def demoLayer : DF :=
  { cols := ["id", "name", "lat", "lon"],
    rows := [[Value.num 1, Value.str "SJSU", Value.num (373353 / 10000),
              Value.num (-1218813 / 10000)]] }

/-- A canonical point table: well-formed, it has `lat` and `lon` columns, no
`distance_m` column (that field is not part of the canonical schema), and
every row carries numeric in-range coordinates. -/
def Canonical (df : DF) : Prop :=
  df.WF ∧ "lat" ∈ df.cols ∧ "lon" ∈ df.cols ∧ "distance_m" ∉ df.cols ∧
    ∀ r ∈ df.rows,
      vbetween (cellOfRow df.cols r "lat") (-90) 90 = true ∧
      vbetween (cellOfRow df.cols r "lon") (-180) 180 = true

instance : DecidablePred Canonical := fun df => by
  unfold Canonical DF.WF
  infer_instance

noncomputable section

open Real

/-- `math.radians`. -/
def radiansOf (d : ℝ) : ℝ := d * π / 180

/-- `math.degrees`. -/
def degreesOf (x : ℝ) : ℝ := x * 180 / π

/-- The spherical earth radius used throughout the source, in meters. -/
def earthRadius : ℝ := 6371000

/-- The haversine intermediate
`s = sin(da/2)**2 + cos(a1)*cos(a2)*sin(db/2)**2` of `haversine_m`. -/
def haversine_s (lon1 lat1 lon2 lat2 : ℝ) : ℝ :=
  let a1 := radiansOf lat1
  let b1 := radiansOf lon1
  let a2 := radiansOf lat2
  let b2 := radiansOf lon2
  let da := a2 - a1
  let db := b2 - b1
  Real.sin (da / 2) ^ 2 + Real.cos a1 * Real.cos a2 * Real.sin (db / 2) ^ 2

/-- `haversine_m(lon1, lat1, lon2, lat2) = 2 * R * asin(sqrt(s))`. -/
def haversine_m (lon1 lat1 lon2 lat2 : ℝ) : ℝ :=
  2 * earthRadius * Real.arcsin (Real.sqrt (haversine_s lon1 lat1 lon2 lat2))

/-- Numeric reading of a cell, as python `float(...)` of a coordinate or a
computed distance.  Non-numeric cells have no float reading; the junk value
`0` stands in for them (the claims only evaluate this on numeric cells). -/
def Value.asReal : Value → ℝ
  | .num q => (q : ℝ)
  | .real x => x
  | _ => 0

/-- The haversine distance from the query point to one row, exactly as the
`df.apply` lambda computes it: `haversine_m(lon, lat, r["lon"], r["lat"])`. -/
def rowDistance (df : DF) (lon lat : ℝ) (r : List Value) : ℝ :=
  haversine_m lon lat (cellOfRow df.cols r "lon").asReal (cellOfRow df.cols r "lat").asReal

/-- The `distance_m` reading of a row of the extended table. -/
def distKey (cols : List String) (r : List Value) : ℝ :=
  (cellOfRow cols r "distance_m").asReal

/-- `within_radius(df, lon, lat, radius_m)`: copy the table, attach the
computed `distance_m` column, keep the rows with `distance_m <= radius_m`
(inclusive boundary) and sort ascending by `distance_m`.  The sort here is a
stable insertion sort — the tie behavior the specification prescribes.  The
source calls `sort_values("distance_m")` with the default `kind='quicksort'`
(numpy introsort), which pandas documents as unstable: it reorders tied keys
once a partition exceeds the small-sort threshold of 16 elements, so the
program does not guarantee that equal-distance rows keep their original
order. -/
def within_radius (df : DF) (lon lat radius_m : ℝ) : DF :=
  let d := df.rows.map (fun r => rowDistance df lon lat r)
  let hits := setColumn df "distance_m" (d.map Value.real)
  { cols := hits.cols,
    rows := List.insertionSort (fun a b => distKey hits.cols a ≤ distKey hits.cols b)
      (hits.rows.filter (fun r => decide (distKey hits.cols r ≤ radius_m))) }

/-- A GeoJSON point feature: `[lon, lat]` coordinates and a property list;
a missing cell is emitted as a null property value (`Option.none`). -/
structure Feature : Type where
  coordinates : ℝ × ℝ
  properties : List (String × Option Value)

/-- The feature built from one row by `df_to_geojson`. -/
def featureOfRow (cols : List String) (props : List String) (r : List Value) : Feature :=
  { coordinates := ((cellOfRow cols r "lon").asReal, (cellOfRow cols r "lat").asReal),
    properties := props.map (fun c =>
      (c, if (cellOfRow cols r c).isMissing then none else some (cellOfRow cols r c))) }

/-- `df.head(limit)` (all rows when `limit` is `None`). -/
def headRows (df : DF) (limit : Option Nat) : List (List Value) :=
  match limit with
  | some l => df.rows.take l
  | none => df.rows

/-- `df_to_geojson(df, limit)`: project the first `limit` rows (all rows when
`limit` is `None`) to a feature collection; the properties are every
non-coordinate column, with missing values as null. -/
def df_to_geojson (df : DF) (limit : Option Nat) : List Feature :=
  (headRows df limit).map (fun r =>
    featureOfRow df.cols (df.cols.filter (fun c => c ∉ (["lat", "lon"] : List String))) r)

/-- One vertex of `circle_polygon`: the spherical direct-geodesic destination
from `(lon, lat)` at the given bearing and angular distance
`radius_m / earthRadius`, in `[degrees(lonp), degrees(latp)]` order.  In this
exact-real model the bearing-`2*pi` vertex coincides with the bearing-0
vertex because `sin(2*pi) = 0`; the program's double-precision
`math.sin(2*math.pi)` is `-2.449e-16`, so its emitted ring is closed only up
to a rounding residue (for `circle_polygon(0, 0, 100, 8)` the first vertex
longitude is `0.0` and the last is about `-2.2e-19`). -/
def destPoint (lon lat radius_m brg : ℝ) : ℝ × ℝ :=
  let lat0 := radiansOf lat
  let lon0 := radiansOf lon
  let angDist := radius_m / earthRadius
  let latp := Real.arcsin (Real.sin lat0 * Real.cos angDist +
    Real.cos lat0 * Real.sin angDist * Real.cos brg)
  let lonp := lon0 + Complex.arg
    ⟨Real.cos angDist - Real.sin lat0 * Real.sin latp,
     Real.sin brg * Real.sin angDist * Real.cos lat0⟩
  (degreesOf lonp, degreesOf latp)

/-- `circle_polygon(lon, lat, radius_m, steps)`: the single ring of the
polygon, one vertex per bearing `2*pi*(i/steps)` for `i = 0..steps`. -/
def circle_polygon (lon lat radius_m : ℝ) (steps : ℕ) : List (ℝ × ℝ) :=
  (List.range (steps + 1)).map (fun i : ℕ =>
    destPoint lon lat radius_m (2 * π * ((i : ℝ) / (steps : ℝ))))

/-- The empty dataframe, the junk value for out-of-range heap reads. -/
def emptyDF : DF := { cols := [], rows := [] }

/-- Heap model of `within_radius` at the granularity of the pandas object
operations: read the layer table at `ref`, allocate `hits = df.copy()` as a
fresh heap cell, mutate that cell in place (`hits["distance_m"] = d`), and
return the new heap with the filtered and sorted result. -/
def within_radius_heap (heap : List DF) (ref : ℕ) (lon lat radius_m : ℝ) :
    List DF × DF :=
  let df := heap.getD ref emptyDF
  let d := df.rows.map (fun r => rowDistance df lon lat r)
  let heap1 := heap ++ [df]
  let i := heap.length
  let heap2 := heap1.set i (setColumn (heap1.getD i emptyDF) "distance_m" (d.map Value.real))
  let hits := heap2.getD i emptyDF
  (heap2,
    { cols := hits.cols,
      rows := List.insertionSort (fun a b => distKey hits.cols a ≤ distKey hits.cols b)
        (hits.rows.filter (fun r => decide (distKey hits.cols r ≤ radius_m))) })

/-- Heap model of `bbox_filter`: boolean-mask indexing and `pd.concat` only
build new frames, so the heap is passed through unchanged. -/
def bbox_filter_heap (heap : List DF) (ref : ℕ) (west south east north : ℚ) :
    List DF × DF :=
  (heap, bbox_filter (heap.getD ref emptyDF) west south east north)

/-- Heap model of `df_to_geojson`: `df.head(limit)` rebinds a local to a new
frame and `iterrows` only reads, so the heap is passed through unchanged. -/
def df_to_geojson_heap (heap : List DF) (ref : ℕ) (limit : Option Nat) :
    List DF × List Feature :=
  (heap, df_to_geojson (heap.getD ref emptyDF) limit)

end

/-! ### Column-index and cell lemmas -/

theorem colIdx_lt {cols : List String} {c : String} {i : ℕ}
    (h : colIdx cols c = some i) : i < cols.length := by
  induction cols generalizing i with
  | nil => simp [colIdx] at h
  | cons a cs ih =>
    by_cases ha : a = c
    · simp [colIdx, ha] at h
      simp only [List.length_cons]
      omega
    · simp [colIdx, ha] at h
      obtain ⟨j, hj, rfl⟩ := h
      have := ih hj
      simp only [List.length_cons]
      omega

theorem colIdx_getElem {cols : List String} {c : String} {i : ℕ}
    (h : colIdx cols c = some i) : cols[i]? = some c := by
  induction cols generalizing i with
  | nil => simp [colIdx] at h
  | cons a cs ih =>
    by_cases ha : a = c
    · simp [colIdx, ha] at h
      simp [← h, ha]
    · simp [colIdx, ha] at h
      obtain ⟨j, hj, rfl⟩ := h
      simpa using ih hj

theorem colIdx_eq_none {cols : List String} {c : String} :
    colIdx cols c = none ↔ c ∉ cols := by
  induction cols with
  | nil => simp [colIdx]
  | cons a cs ih =>
    by_cases ha : a = c
    · simp [colIdx, ha]
    · simp [colIdx, ha, ih, Ne.symm ha]

theorem colIdx_isSome {cols : List String} {c : String} (h : c ∈ cols) :
    ∃ i, colIdx cols c = some i := by
  cases hi : colIdx cols c with
  | none => exact absurd (colIdx_eq_none.mp hi) (by simpa using h)
  | some i => exact ⟨i, rfl⟩

theorem colIdx_append_left {cols tail : List String} {c : String} {i : ℕ}
    (h : colIdx cols c = some i) : colIdx (cols ++ tail) c = some i := by
  induction cols generalizing i with
  | nil => simp [colIdx] at h
  | cons a cs ih =>
    by_cases ha : a = c
    · simp [colIdx, ha] at h ⊢
      exact h
    · simp [colIdx, ha] at h ⊢
      obtain ⟨j, hj, rfl⟩ := h
      exact ⟨j, ih hj, rfl⟩

theorem colIdx_append_of_not_mem {cols tail : List String} {c : String}
    (h : c ∉ cols) : colIdx (cols ++ tail) c = (colIdx tail c).map (· + cols.length) := by
  induction cols with
  | nil => simp
  | cons a cs ih =>
    have ha : a ≠ c := fun hac => h (hac ▸ List.mem_cons_self a cs)
    have hcs : c ∉ cs := fun hc => h (List.mem_cons_of_mem a hc)
    simp [colIdx, ha, ih hcs, Option.map_map]

theorem colIdx_append_self {cols : List String} {c : String} (h : c ∉ cols) :
    colIdx (cols ++ [c]) c = some cols.length := by
  rw [colIdx_append_of_not_mem h]
  simp [colIdx]

theorem cellOfRow_of_none {cols : List String} {r : List Value} {c : String}
    (h : colIdx cols c = none) : cellOfRow cols r c = Value.missing := by
  simp [cellOfRow, h]

theorem cellOfRow_map_self {names : List String} (f : String → Value) {c : String}
    (h : c ∈ names) : cellOfRow names (names.map f) c = f c := by
  obtain ⟨i, hi⟩ := colIdx_isSome h
  have hget := colIdx_getElem hi
  have hlt : i < names.length := colIdx_lt hi
  simp only [cellOfRow, hi]
  rw [List.getD_eq_getElem?_getD, List.getElem?_map, hget]
  rfl

theorem cellOfRow_append_ne {cols : List String} {r : List Value} {name c : String}
    {v : Value} (hwfr : r.length = cols.length) (hc : c ≠ name) :
    cellOfRow (cols ++ [name]) (r ++ [v]) c = cellOfRow cols r c := by
  by_cases hmem : c ∈ cols
  · obtain ⟨i, hi⟩ := colIdx_isSome hmem
    have hlt : i < cols.length := colIdx_lt hi
    simp only [cellOfRow, colIdx_append_left hi, hi]
    rw [List.getD_eq_getElem?_getD, List.getD_eq_getElem?_getD,
      List.getElem?_append_left (by omega)]
  · have h1 : colIdx cols c = none := colIdx_eq_none.mpr hmem
    have h2 : colIdx (cols ++ [name]) c = none := by
      rw [colIdx_append_of_not_mem hmem]
      simp [colIdx, Ne.symm hc]
    simp [cellOfRow, h1, h2]

theorem cellOfRow_set_ne {cols : List String} {r : List Value} {name c : String}
    {v : Value} {i : ℕ} (hname : colIdx cols name = some i) (hc : c ≠ name) :
    cellOfRow cols (r.set i v) c = cellOfRow cols r c := by
  cases hj : colIdx cols c with
  | none => simp [cellOfRow, hj]
  | some j =>
    have hij : i ≠ j := by
      intro h
      subst h
      have := colIdx_getElem hname
      have := colIdx_getElem hj
      simp_all
    simp only [cellOfRow, hj]
    rw [List.getD_eq_getElem?_getD, List.getD_eq_getElem?_getD,
      List.getElem?_set_ne hij]

/-! ### zipWith and membership lemmas -/

theorem mem_zipWith {α β γ : Type _} {f : α → β → γ} {x : γ} :
    ∀ {as : List α} {bs : List β}, x ∈ List.zipWith f as bs →
      ∃ a ∈ as, ∃ b ∈ bs, x = f a b := by
  intro as
  induction as with
  | nil => intro bs h; simp at h
  | cons a as ih =>
    intro bs h
    cases bs with
    | nil => simp at h
    | cons b bs =>
      simp only [List.zipWith_cons_cons, List.mem_cons] at h
      rcases h with h | h
      · exact ⟨a, by simp, b, by simp, h⟩
      · obtain ⟨a2, ha, b2, hb, hx⟩ := ih h
        exact ⟨a2, by simp [ha], b2, by simp [hb], hx⟩

theorem zipWith_map_right_self {α β γ : Type _} (f : α → β → γ) (g : α → β) :
    ∀ l : List α, List.zipWith f l (l.map g) = l.map (fun a => f a (g a)) := by
  intro l
  induction l with
  | nil => rfl
  | cons a l ih => simp [ih]

theorem map_getD_zipWith_append {cols : List String} :
    ∀ {rows : List (List Value)} {vals : List Value},
      (∀ r ∈ rows, r.length = cols.length) → vals.length = rows.length →
      (List.zipWith (fun r v => r ++ [v]) rows vals).map
        (fun r => r.getD cols.length Value.missing) = vals := by
  intro rows
  induction rows with
  | nil =>
    intro vals _ hlen
    rw [List.length_nil] at hlen
    rw [List.eq_nil_of_length_eq_zero hlen]
    rfl
  | cons r rows ih =>
    intro vals hwf hlen
    cases vals with
    | nil => simp at hlen
    | cons v vs =>
      have hr : r.length = cols.length := hwf r (by simp)
      have hhead : (r ++ [v]).getD cols.length Value.missing = v := by
        rw [List.getD_eq_getElem?_getD, ← hr, List.getElem?_concat_length]
        rfl
      simp only [List.zipWith_cons_cons, List.map_cons]
      rw [hhead, ih (fun a ha => hwf a (by simp [ha])) (by simpa using hlen)]

/-! ### Value predicate lemmas -/

theorem vbetween_iff {v : Value} {lo hi : ℚ} :
    vbetween v lo hi = true ↔ ∃ q, v = Value.num q ∧ lo ≤ q ∧ q ≤ hi := by
  cases v <;> simp [vbetween]

theorem vge_iff {v : Value} {b : ℚ} :
    vge v b = true ↔ ∃ q, v = Value.num q ∧ b ≤ q := by
  cases v <;> simp [vge]

theorem vle_iff {v : Value} {b : ℚ} :
    vle v b = true ↔ ∃ q, v = Value.num q ∧ q ≤ b := by
  cases v <;> simp [vle]

/-! ### setColumn structure lemmas -/

theorem mem_cols_setColumn_self (df : DF) (name : String) (vals : List Value) :
    name ∈ (setColumn df name vals).cols := by
  by_cases hmem : name ∈ df.cols
  · obtain ⟨i, hi⟩ := colIdx_isSome hmem
    simp [setColumn, hi, hmem]
  · simp [setColumn, colIdx_eq_none.mpr hmem]

theorem mem_cols_setColumn_of_mem {df : DF} {c : String} (name : String)
    (vals : List Value) (h : c ∈ df.cols) : c ∈ (setColumn df name vals).cols := by
  cases hcase : colIdx df.cols name <;> simp [setColumn, hcase, h]

theorem mem_cols_setColumn_elim {df : DF} {c name : String} {vals : List Value}
    (h : c ∈ (setColumn df name vals).cols) : c ∈ df.cols ∨ c = name := by
  cases hcase : colIdx df.cols name with
  | some i =>
    simp [setColumn, hcase] at h
    exact Or.inl h
  | none =>
    simp [setColumn, hcase] at h
    exact h

theorem length_rows_setColumn {df : DF} {name : String} {vals : List Value}
    (hlen : vals.length = df.rows.length) :
    (setColumn df name vals).rows.length = df.rows.length := by
  unfold setColumn
  cases colIdx df.cols name <;> simp [hlen]

theorem wf_setColumn {df : DF} {name : String} {vals : List Value} (hwf : df.WF) :
    (setColumn df name vals).WF := by
  unfold setColumn
  cases h : colIdx df.cols name with
  | some i =>
    intro r hr
    obtain ⟨a, ha, b, _, rfl⟩ := mem_zipWith hr
    simpa using hwf a ha
  | none =>
    intro r hr
    obtain ⟨a, ha, b, _, rfl⟩ := mem_zipWith hr
    simp [hwf a ha]

theorem cellOfRow_setColumn_ne {df : DF} {name : String} {vals : List Value}
    {s : List Value} (hwf : df.WF) (hs : s ∈ (setColumn df name vals).rows) :
    ∃ r ∈ df.rows, ∀ c, c ≠ name →
      cellOfRow (setColumn df name vals).cols s c = cellOfRow df.cols r c := by
  unfold setColumn at hs ⊢
  cases h : colIdx df.cols name with
  | some i =>
    rw [h] at hs
    obtain ⟨r, hr, v, _, rfl⟩ := mem_zipWith hs
    exact ⟨r, hr, fun c hc => cellOfRow_set_ne h hc⟩
  | none =>
    rw [h] at hs
    obtain ⟨r, hr, v, _, rfl⟩ := mem_zipWith hs
    exact ⟨r, hr, fun c hc => cellOfRow_append_ne (hwf r hr) hc⟩

theorem getCol_setColumn_append {df : DF} {name : String} {vals : List Value}
    (hname : name ∉ df.cols) (hwf : df.WF) (hlen : vals.length = df.rows.length) :
    getCol (setColumn df name vals) name = vals := by
  unfold setColumn getCol
  rw [colIdx_eq_none.mpr hname]
  simp only
  have : ∀ r, cellOfRow (df.cols ++ [name]) r name = r.getD df.cols.length Value.missing := by
    intro r
    simp [cellOfRow, colIdx_append_self hname]
  simp only [this]
  exact map_getD_zipWith_append hwf hlen

/-! ### Pipeline structure lemmas -/

theorem getCol_length (df : DF) (name : String) :
    (getCol df name).length = df.rows.length := by
  simp [getCol]

theorem getCol_selectCols {df : DF} {names : List String} {c : String} (h : c ∈ names) :
    getCol (selectCols df names) c = getCol df c := by
  unfold getCol selectCols
  simp only [List.map_map]
  apply List.map_congr_left
  intro r _
  exact cellOfRow_map_self (fun c => cellOfRow df.cols r c) h

theorem wf_selectCols (df : DF) (names : List String) : (selectCols df names).WF := by
  intro r hr
  simp only [selectCols, List.mem_map] at hr
  obtain ⟨a, _, rfl⟩ := hr
  simp [selectCols]

theorem mem_rows_dropna {df : DF} {r : List Value} (h : r ∈ (dropnaLatLon df).rows) :
    r ∈ df.rows := by
  simp only [dropnaLatLon, List.mem_filter] at h
  exact h.1

theorem mem_rows_rangeFilter {df : DF} {r : List Value} (h : r ∈ (rangeFilter df).rows) :
    r ∈ df.rows ∧ vbetween (cellOfRow df.cols r "lat") (-90) 90 = true ∧
      vbetween (cellOfRow df.cols r "lon") (-180) 180 = true := by
  simp only [rangeFilter, List.mem_filter, Bool.and_eq_true] at h
  exact ⟨h.1, h.2.1, h.2.2⟩

theorem cols_dropna (df : DF) : (dropnaLatLon df).cols = df.cols := rfl

theorem cols_rangeFilter (df : DF) : (rangeFilter df).cols = df.cols := rfl

theorem cols_cleanRows (df : DF) : (cleanRows df).cols = df.cols := rfl

theorem wf_dropna {df : DF} (hwf : df.WF) : (dropnaLatLon df).WF := by
  intro r hr
  exact hwf r (mem_rows_dropna hr)

theorem wf_rangeFilter {df : DF} (hwf : df.WF) : (rangeFilter df).WF := by
  intro r hr
  exact hwf r (mem_rows_rangeFilter hr).1

theorem wf_cleanRows {df : DF} (hwf : df.WF) : (cleanRows df).WF :=
  wf_rangeFilter (wf_dropna hwf)

theorem mem_rows_cleanRows {df : DF} {r : List Value} (h : r ∈ (cleanRows df).rows) :
    r ∈ df.rows ∧ vbetween (cellOfRow df.cols r "lat") (-90) 90 = true ∧
      vbetween (cellOfRow df.cols r "lon") (-180) 180 = true := by
  have h2 := mem_rows_rangeFilter h
  rw [cols_dropna] at h2
  exact ⟨mem_rows_dropna h2.1, h2.2⟩

theorem wf_renameCols {df : DF} (hwf : df.WF) : (renameCols df).WF := by
  intro r hr
  simp [renameCols]
  exact hwf r hr

theorem wf_coerceLatLon {df : DF} (parseNum : String → Option ℚ) {latc lonc : String}
    (hwf : df.WF) : (coerceLatLon parseNum df latc lonc).WF :=
  wf_setColumn (wf_setColumn hwf)

theorem length_rows_coerce (df : DF) (parseNum : String → Option ℚ) (latc lonc : String) :
    (coerceLatLon parseNum df latc lonc).rows.length = df.rows.length := by
  unfold coerceLatLon
  rw [length_rows_setColumn (by simp [getCol_length]), length_rows_setColumn (by simp [getCol_length])]

theorem lat_mem_cols_coerce (df : DF) (parseNum : String → Option ℚ) (latc lonc : String) :
    "lat" ∈ (coerceLatLon parseNum df latc lonc).cols :=
  mem_cols_setColumn_of_mem _ _ (mem_cols_setColumn_self _ _ _)

theorem lon_mem_cols_coerce (df : DF) (parseNum : String → Option ℚ) (latc lonc : String) :
    "lon" ∈ (coerceLatLon parseNum df latc lonc).cols :=
  mem_cols_setColumn_self _ _ _

theorem wf_addName {df : DF} (hwf : df.WF) : (addName df).WF := by
  unfold addName
  split
  · exact hwf
  · exact wf_setColumn hwf

theorem wf_addId {df : DF} (hwf : df.WF) : (addId df).WF := by
  unfold addId
  split
  · exact hwf
  · exact wf_setColumn hwf

theorem wf_addNameId {df : DF} (hwf : df.WF) : (addNameId df).WF :=
  wf_addId (wf_addName hwf)

theorem length_rows_addName (df : DF) : (addName df).rows.length = df.rows.length := by
  unfold addName
  split
  · rfl
  · exact length_rows_setColumn (by simp)

theorem length_rows_addId (df : DF) : (addId df).rows.length = df.rows.length := by
  unfold addId
  split
  · rfl
  · exact length_rows_setColumn (by rw [List.length_map, List.length_range])

theorem length_rows_addNameId (df : DF) : (addNameId df).rows.length = df.rows.length := by
  unfold addNameId
  rw [length_rows_addId, length_rows_addName]

theorem length_rows_reorder (df : DF) : (reorderCols df).rows.length = df.rows.length := by
  simp [reorderCols, selectCols]

/-! ### The haversine intermediate is a valid asin argument -/

theorem haversine_arg_bounds (a1 a2 db : ℝ) :
    0 ≤ Real.sin ((a2 - a1) / 2) ^ 2 + Real.cos a1 * Real.cos a2 * Real.sin (db / 2) ^ 2 ∧
      Real.sin ((a2 - a1) / 2) ^ 2 + Real.cos a1 * Real.cos a2 * Real.sin (db / 2) ^ 2 ≤ 1 := by
  have e1 : Real.sin ((a2 - a1) / 2) ^ 2 = 1 / 2 - Real.cos (a2 - a1) / 2 := by
    have h := Real.sin_sq_eq_half_sub ((a2 - a1) / 2)
    rw [show 2 * ((a2 - a1) / 2) = a2 - a1 by ring] at h
    exact h
  have e2 : Real.sin (db / 2) ^ 2 = 1 / 2 - Real.cos db / 2 := by
    have h := Real.sin_sq_eq_half_sub (db / 2)
    rw [show 2 * (db / 2) = db by ring] at h
    exact h
  have e3 : Real.cos (a2 - a1) = Real.cos a2 * Real.cos a1 + Real.sin a2 * Real.sin a1 :=
    Real.cos_sub a2 a1
  have e4 : Real.cos (a2 + a1) = Real.cos a2 * Real.cos a1 - Real.sin a2 * Real.sin a1 :=
    Real.cos_add a2 a1
  have b1 : -1 ≤ Real.cos db := Real.neg_one_le_cos db
  have b2 : Real.cos db ≤ 1 := Real.cos_le_one db
  have b3 : -1 ≤ Real.cos (a2 - a1) := Real.neg_one_le_cos _
  have b4 : Real.cos (a2 - a1) ≤ 1 := Real.cos_le_one _
  have b5 : -1 ≤ Real.cos (a2 + a1) := Real.neg_one_le_cos _
  have b6 : Real.cos (a2 + a1) ≤ 1 := Real.cos_le_one _
  constructor
  · nlinarith [mul_nonneg (by linarith : (0:ℝ) ≤ 1 + Real.cos db)
        (by linarith : (0:ℝ) ≤ 1 - Real.cos (a2 - a1)),
      mul_nonneg (by linarith : (0:ℝ) ≤ 1 - Real.cos db)
        (by linarith : (0:ℝ) ≤ 1 + Real.cos (a2 + a1))]
  · nlinarith [mul_nonneg (by linarith : (0:ℝ) ≤ 1 + Real.cos db)
        (by linarith : (0:ℝ) ≤ 1 + Real.cos (a2 - a1)),
      mul_nonneg (by linarith : (0:ℝ) ≤ 1 - Real.cos db)
        (by linarith : (0:ℝ) ≤ 1 - Real.cos (a2 + a1))]

/-! ### Stability of the distance sort -/

theorem filter_orderedInsert_eqKey {α : Type _} (k : α → ℝ) (c : ℝ) (x : α) (l : List α) :
    (List.orderedInsert (fun a b => k a ≤ k b) x l).filter (fun a => decide (k a = c)) =
      if k x = c then x :: l.filter (fun a => decide (k a = c))
      else l.filter (fun a => decide (k a = c)) := by
  induction l with
  | nil => by_cases hx : k x = c <;> simp [List.orderedInsert, hx]
  | cons b l ih =>
    by_cases hxb : k x ≤ k b
    · simp only [List.orderedInsert, if_pos hxb]
      by_cases hx : k x = c <;> simp [List.filter_cons, hx]
    · simp only [List.orderedInsert, if_neg hxb]
      have hbx : k b < k x := lt_of_not_le hxb
      by_cases hb : k b = c
      · have hx : ¬ k x = c := by
          intro h
          rw [h, hb] at hbx
          exact lt_irrefl c hbx
        simp [List.filter_cons, hb, hx, ih]
      · by_cases hx : k x = c <;> simp [List.filter_cons, hb, hx, ih]

theorem filter_insertionSort_eqKey {α : Type _} (k : α → ℝ) (c : ℝ) (l : List α) :
    (List.insertionSort (fun a b => k a ≤ k b) l).filter (fun a => decide (k a = c)) =
      l.filter (fun a => decide (k a = c)) := by
  induction l with
  | nil => rfl
  | cons x l ih =>
    simp only [List.insertionSort]
    rw [filter_orderedInsert_eqKey]
    by_cases hx : k x = c
    · simp [hx, List.filter_cons, ih]
    · simp [hx, List.filter_cons, ih]

theorem pairwise_insertionSort_key {α : Type _} (k : α → ℝ) (l : List α) :
    List.Pairwise (fun a b => k a ≤ k b)
      (List.insertionSort (fun a b => k a ≤ k b) l) := by
  haveI : IsTotal α (fun a b => k a ≤ k b) := ⟨fun a b => le_total _ _⟩
  haveI : IsTrans α (fun a b => k a ≤ k b) := ⟨fun a b c h1 h2 => le_trans h1 h2⟩
  exact List.sorted_insertionSort _ l

/-! ### Concatenation of two disjoint filters is the filter of the union -/

theorem filter_disjoint_append_perm {α : Type _} (p q u : α → Bool) (l : List α)
    (hd : ∀ a, ¬(p a = true ∧ q a = true)) :
    List.Perm (l.filter (fun a => p a && u a) ++ l.filter (fun a => q a && u a))
      (l.filter (fun a => u a && (p a || q a))) := by
  induction l with
  | nil => rfl
  | cons a l ih =>
    by_cases hu : u a = true
    · by_cases hp : p a = true
      · have hq : q a = false := by
          cases hqv : q a
          · rfl
          · exact absurd ⟨hp, hqv⟩ (hd a)
        simp only [List.filter_cons, hp, hq, hu, Bool.true_and, Bool.and_true,
          Bool.false_and, Bool.true_or, Bool.and_false, if_true, if_false]
        simpa using ih.cons a
      · have hp' : p a = false := by
          cases hpv : p a
          · rfl
          · exact absurd hpv hp
        by_cases hq : q a = true
        · simp only [List.filter_cons, hp', hq, hu, Bool.true_and, Bool.and_true,
            Bool.false_and, Bool.false_or, Bool.true_or, if_true, if_false]
          exact (List.perm_middle).trans (ih.cons a)
        · have hq' : q a = false := by
            cases hqv : q a
            · rfl
            · exact absurd hqv hq
          simp only [List.filter_cons, hp', hq', hu, Bool.false_and, Bool.and_false,
            Bool.false_or, if_false]
          exact ih
    · have hu' : u a = false := by
        cases huv : u a
        · rfl
        · exact absurd huv hu
      simp only [List.filter_cons, hu', Bool.and_false, Bool.false_and, if_false]
      exact ih

/-! ### List take and set lemmas for the heap model -/

theorem take_set_of_le {α : Type _} (a : α) :
    ∀ (l : List α) (i n : ℕ), n ≤ i → (l.set i a).take n = l.take n := by
  intro l
  induction l with
  | nil => simp
  | cons b l ih =>
    intro i n hn
    cases i with
    | zero =>
      have hn0 : n = 0 := by omega
      simp [hn0]
    | succ i =>
      cases n with
      | zero => simp
      | succ n =>
        simp only [List.set, List.take]
        rw [ih i n (by omega)]

theorem getD_set_self {α : Type _} (d a : α) :
    ∀ (l : List α) (i : ℕ), i < l.length → (l.set i a).getD i d = a := by
  intro l
  induction l with
  | nil => intro i h; simp at h
  | cons b l ih =>
    intro i h
    cases i with
    | zero => rfl
    | succ i =>
      simp only [List.set, List.getD]
      exact ih i (by simpa using h)

/-! ### Claim theorems -/

/-- C2: `haversine_m` succeeds on every (finite) real input: the haversine
intermediate `s` always lies in `[0, 1]`, so `sqrt(s)` is defined (its
argument is nonnegative) and lies inside `[-1, 1]`, the domain of `asin` —
including for antipodal and near-antipodal point pairs. -/
theorem haversine_m_total (lon1 lat1 lon2 lat2 : ℝ) :
    0 ≤ haversine_s lon1 lat1 lon2 lat2 ∧ haversine_s lon1 lat1 lon2 lat2 ≤ 1 ∧
      Real.sqrt (haversine_s lon1 lat1 lon2 lat2) ∈ Set.Icc (-1 : ℝ) 1 := by
  have h := haversine_arg_bounds (radiansOf lat1) (radiansOf lat2)
    (radiansOf lon2 - radiansOf lon1)
  have hs : haversine_s lon1 lat1 lon2 lat2 =
      Real.sin ((radiansOf lat2 - radiansOf lat1) / 2) ^ 2 +
        Real.cos (radiansOf lat1) * Real.cos (radiansOf lat2) *
          Real.sin ((radiansOf lon2 - radiansOf lon1) / 2) ^ 2 := rfl
  rw [hs]
  refine ⟨h.1, h.2, ?_, Real.sqrt_le_one.mpr h.2⟩
  exact le_trans (by norm_num) (Real.sqrt_nonneg _)

/-- C9: the haversine distance from any point to itself is exactly 0. -/
theorem haversine_m_self (lon lat : ℝ) : haversine_m lon lat lon lat = 0 := by
  have hs : haversine_s lon lat lon lat = 0 := by
    simp [haversine_s, sub_self]
  simp [haversine_m, hs, Real.sqrt_zero, Real.arcsin_zero]

/-- The two endpoint bearings 0 and `2*pi` give the same destination
vertex, because the formula depends on the bearing only through its sine
and cosine. -/
theorem destPoint_two_pi (lon lat radius_m : ℝ) :
    destPoint lon lat radius_m (2 * Real.pi) = destPoint lon lat radius_m 0 := by
  simp [destPoint, Real.cos_two_pi, Real.sin_two_pi]

/-- C7, in the exact-real semantics: for every `steps ≥ 3`, the ring
produced by `circle_polygon` has exactly `steps + 1` coordinate pairs, the
first coordinate equals the last (closed ring), and every vertex is the
spherical direct-geodesic destination at a bearing stepping uniformly from 0
to `2*pi` inclusive.  Exact closure is the evident intent of running the
bearing to `2*pi` inclusive (and a GeoJSON Polygon ring must be closed), but
the double-precision program misses it: `math.sin(2*math.pi)` is not 0, so
the emitted first and last vertices differ by a rounding residue. -/
theorem circle_polygon_ring (lon lat radius_m : ℝ) (steps : ℕ) (hsteps : 3 ≤ steps) :
    (circle_polygon lon lat radius_m steps).length = steps + 1 ∧
      (circle_polygon lon lat radius_m steps).head? =
        (circle_polygon lon lat radius_m steps).getLast? ∧
      ∀ i, i ≤ steps → (circle_polygon lon lat radius_m steps)[i]? =
        some (destPoint lon lat radius_m (2 * Real.pi * ((i : ℝ) / (steps : ℝ)))) := by
  have hlen : (circle_polygon lon lat radius_m steps).length = steps + 1 := by
    simp [circle_polygon]
  have hidx : ∀ i, i ≤ steps → (circle_polygon lon lat radius_m steps)[i]? =
      some (destPoint lon lat radius_m (2 * Real.pi * ((i : ℝ) / (steps : ℝ)))) := by
    intro i hi
    have hlt : i < steps + 1 := by omega
    simp [circle_polygon, List.getElem?_map, List.getElem?_range hlt]
  refine ⟨hlen, ?_, hidx⟩
  have hne : (steps : ℝ) ≠ 0 := Nat.cast_ne_zero.mpr (by omega)
  have h0 := hidx 0 (by omega)
  have hn := hidx steps le_rfl
  rw [List.head?_eq_getElem?, List.getLast?_eq_getElem?, hlen]
  simp only [Nat.add_sub_cancel]
  rw [h0, hn]
  rw [show ((0 : ℕ) : ℝ) / (steps : ℝ) = 0 by simp]
  rw [show ((steps : ℕ) : ℝ) / (steps : ℝ) = 1 from div_self hne]
  rw [mul_zero, mul_one, destPoint_two_pi]

/-- C3: with `east < west` the bounding box wraps the antimeridian: the
output keeps the columns, consists of the west-side rows (`lon >= west`)
followed by the east-side rows (`lon <= east`), each side in original table
order; a row is kept exactly when its latitude is within `[south, north]`
and its longitude is `>= west` or `<= east`; the two sides are disjoint, so
no row is emitted twice — the output is a permutation of the single filter
by the union predicate. -/
theorem bbox_filter_wraparound (df : DF) (west south east north : ℚ)
    (hew : east < west) :
    (bbox_filter df west south east north).cols = df.cols ∧
    (bbox_filter df west south east north).rows =
      df.rows.filter (fun r => vge (cellOfRow df.cols r "lon") west &&
        vbetween (cellOfRow df.cols r "lat") south north) ++
      df.rows.filter (fun r => vle (cellOfRow df.cols r "lon") east &&
        vbetween (cellOfRow df.cols r "lat") south north) ∧
    (∀ r, r ∈ (bbox_filter df west south east north).rows ↔
      r ∈ df.rows ∧ vbetween (cellOfRow df.cols r "lat") south north = true ∧
        (vge (cellOfRow df.cols r "lon") west = true ∨
          vle (cellOfRow df.cols r "lon") east = true)) ∧
    (∀ v : Value, ¬(vge v west = true ∧ vle v east = true)) ∧
    List.Perm (bbox_filter df west south east north).rows
      (df.rows.filter (fun r => vbetween (cellOfRow df.cols r "lat") south north &&
        (vge (cellOfRow df.cols r "lon") west || vle (cellOfRow df.cols r "lon") east))) := by
  have hdisj : ∀ v : Value, ¬(vge v west = true ∧ vle v east = true) := by
    intro v ⟨h1, h2⟩
    obtain ⟨q1, hv1, hq1⟩ := vge_iff.mp h1
    obtain ⟨q2, hv2, hq2⟩ := vle_iff.mp h2
    rw [hv1] at hv2
    cases hv2
    linarith
  have hrows : (bbox_filter df west south east north).rows =
      df.rows.filter (fun r => vge (cellOfRow df.cols r "lon") west &&
        vbetween (cellOfRow df.cols r "lat") south north) ++
      df.rows.filter (fun r => vle (cellOfRow df.cols r "lon") east &&
        vbetween (cellOfRow df.cols r "lat") south north) := by
    simp [bbox_filter, if_pos hew]
  have hcols : (bbox_filter df west south east north).cols = df.cols := by
    simp [bbox_filter, if_pos hew]
  refine ⟨hcols, hrows, ?_, hdisj, ?_⟩
  · intro r
    rw [hrows]
    simp only [List.mem_append, List.mem_filter, Bool.and_eq_true]
    tauto
  · rw [hrows]
    exact filter_disjoint_append_perm _ _ _ df.rows
      (fun r => hdisj (cellOfRow df.cols r "lon"))

/-- The copy-allocate-mutate pattern of the heap model: reading back the
freshly mutated cell yields the mutated table. -/
theorem getD_append_set_self (heap : List DF) (x y : DF) :
    ((heap ++ [x]).set heap.length y).getD heap.length emptyDF = y :=
  getD_set_self _ _ _ _ (by simp)

/-- Reading the appended cell of the copy heap yields the copied table. -/
theorem getD_append_self (heap : List DF) (x : DF) :
    (heap ++ [x]).getD heap.length emptyDF = x := by
  rw [List.getD_eq_getElem?_getD, List.getElem?_concat_length]
  rfl

/-- C10: the query operations never modify the table they are given.  In
the heap model, `within_radius` copies the layer table into a fresh cell and
attaches `distance_m` to the copy only, so every pre-existing heap cell is
unchanged and the result is the pure function of the stored table;
`bbox_filter` and `df_to_geojson` build only new frames and pass the heap
through untouched. -/
theorem queries_do_not_mutate (heap : List DF) (ref : ℕ) (lon lat radius_m : ℝ)
    (west south east north : ℚ) (limit : Option Nat) :
    (within_radius_heap heap ref lon lat radius_m).1.take heap.length = heap ∧
    (within_radius_heap heap ref lon lat radius_m).2 =
      within_radius (heap.getD ref emptyDF) lon lat radius_m ∧
    (bbox_filter_heap heap ref west south east north).1 = heap ∧
    (df_to_geojson_heap heap ref limit).1 = heap := by
  refine ⟨?_, ?_, rfl, rfl⟩
  · simp only [within_radius_heap]
    rw [take_set_of_le _ _ _ _ le_rfl, List.take_left]
  · simp only [within_radius_heap, within_radius, getD_append_self, getD_append_set_self]

/-- C6 (amended): provided no two raw column names strip/lower to the same
label, normalization of an import errors exactly when no latitude-like or no
longitude-like column can be identified among the aliases, or zero valid
rows remain after the coordinate cleaning; in every other such case it
returns a table.  Without that proviso the program has a further error path:
a duplicated renamed label makes `df[lat_col]` a two-column frame and
`pd.to_numeric` raises, so the import errors even though an alias pair is
found and rows would survive cleaning. -/
theorem import_normalize_error_iff (parseNum : String → Option ℚ) (df0 : DF)
    (hnodup : (renameCols df0).cols.Nodup) :
    isError (import_normalize parseNum df0) = true ↔
      findCol (renameCols df0) latAliases = none ∨
      findCol (renameCols df0) lonAliases = none ∨
      cleanedRows parseNum df0 = [] := by
  cases hlat : findCol (renameCols df0) latAliases with
  | none =>
    simp [import_normalize, normalize_columns, isError, hlat]
  | some latc =>
    cases hlon : findCol (renameCols df0) lonAliases with
    | none =>
      simp [import_normalize, normalize_columns, isError, hlat, hlon]
    | some lonc =>
      have hcount : ∀ a, (renameCols df0).cols.count a ≤ 1 :=
        List.nodup_iff_count_le_one.mp hnodup
      have hdup : hasDupLabel (renameCols df0) latc lonc = false := by
        simp only [hasDupLabel, Bool.or_eq_false_iff, decide_eq_false_iff_not, not_lt]
        exact ⟨hcount latc, hcount lonc⟩
      have hcle : cleanedRows parseNum df0 =
          (cleanRows (coerceLatLon parseNum (renameCols df0) latc lonc)).rows := by
        simp [cleanedRows, hlat, hlon]
      have hlen : (reorderCols (addNameId (cleanRows
            (coerceLatLon parseNum (renameCols df0) latc lonc)))).rows.length =
          (cleanRows (coerceLatLon parseNum (renameCols df0) latc lonc)).rows.length := by
        rw [length_rows_reorder, length_rows_addNameId]
      simp only [import_normalize, normalize_columns, hlat, hlon, hdup,
        Bool.false_eq_true, if_false, hcle]
      by_cases hemp : (reorderCols (addNameId (cleanRows
          (coerceLatLon parseNum (renameCols df0) latc lonc)))).rows.isEmpty = true
      · have h0 : (cleanRows (coerceLatLon parseNum (renameCols df0) latc lonc)).rows = [] := by
          rw [← List.length_eq_zero, ← hlen]
          exact List.isEmpty_iff_length_eq_zero.mp hemp
        simp [hemp, isError, h0]
      · have h0 : ¬(cleanRows (coerceLatLon parseNum (renameCols df0) latc lonc)).rows = [] := by
          intro h
          exact hemp (List.isEmpty_iff_length_eq_zero.mpr (by rw [hlen, h]; rfl))
        simp [hemp, isError, h0]

/-- C6 witness: a duplicate-free header, where the error characterization
holds. -/
theorem import_normalize_error_iff_witness :
    (renameCols ⟨["lat", "lon"], [[Value.num 1, Value.num 2]]⟩).cols.Nodup ∧
    (isError (import_normalize (fun _ => none)
        ⟨["lat", "lon"], [[Value.num 1, Value.num 2]]⟩) = true ↔
      findCol (renameCols ⟨["lat", "lon"], [[Value.num 1, Value.num 2]]⟩) latAliases = none ∨
      findCol (renameCols ⟨["lat", "lon"], [[Value.num 1, Value.num 2]]⟩) lonAliases = none ∨
      cleanedRows (fun _ => none) ⟨["lat", "lon"], [[Value.num 1, Value.num 2]]⟩ = []) :=
  ⟨by decide, import_normalize_error_iff (fun _ => none) _ (by decide)⟩

/-- C6 counterexample: the raw header `Lat, LAT, lon` renames to the
duplicated labels `lat, lat, lon`; the program then fails inside
`pd.to_numeric(df["lat"])` although a latitude and a longitude alias are
found and one valid row would survive cleaning — refuting the unconditional
error characterization at this input. -/
theorem import_normalize_error_iff_refuted :
    ¬(isError (import_normalize (fun _ => none)
        ⟨["Lat", "LAT", "lon"], [[Value.num 1, Value.num 2, Value.num 3]]⟩) = true ↔
      findCol (renameCols ⟨["Lat", "LAT", "lon"],
          [[Value.num 1, Value.num 2, Value.num 3]]⟩) latAliases = none ∨
      findCol (renameCols ⟨["Lat", "LAT", "lon"],
          [[Value.num 1, Value.num 2, Value.num 3]]⟩) lonAliases = none ∨
      cleanedRows (fun _ => none) ⟨["Lat", "LAT", "lon"],
          [[Value.num 1, Value.num 2, Value.num 3]]⟩ = []) := by
  intro h
  have herr : isError (import_normalize (fun _ => none)
      ⟨["Lat", "LAT", "lon"], [[Value.num 1, Value.num 2, Value.num 3]]⟩) = true := rfl
  have hlat : findCol (renameCols ⟨["Lat", "LAT", "lon"],
      [[Value.num 1, Value.num 2, Value.num 3]]⟩) latAliases = some "lat" := rfl
  have hlon : findCol (renameCols ⟨["Lat", "LAT", "lon"],
      [[Value.num 1, Value.num 2, Value.num 3]]⟩) lonAliases = some "lon" := rfl
  have hcle : cleanedRows (fun _ => none) ⟨["Lat", "LAT", "lon"],
      [[Value.num 1, Value.num 2, Value.num 3]]⟩ =
      [[Value.num 1, Value.num 2, Value.num 3]] := rfl
  rcases h.mp herr with hl | hl | hl
  · rw [hlat] at hl
    exact Option.noConfusion hl
  · rw [hlon] at hl
    exact Option.noConfusion hl
  · rw [hcle] at hl
    exact List.noConfusion hl

/-- C4: when the renamed input has a recognized latitude/longitude alias
pair and no `id` column, the normalized output ids are exactly the
contiguous sequence 1..N in row order, with N the number of rows surviving
the coordinate cleaning — ids are assigned after invalid rows are dropped,
not from original row positions. -/
theorem normalize_id_contiguous (parseNum : String → Option ℚ) (df0 out : DF)
    (hwf : df0.WF) (hid : "id" ∉ (renameCols df0).cols)
    (hok : normalize_columns parseNum df0 = Except.ok out) :
    getCol out "id" =
      (List.range out.rows.length).map (fun n : ℕ => Value.num ((n : ℚ) + 1)) ∧
    ∀ latc lonc, findCol (renameCols df0) latAliases = some latc →
      findCol (renameCols df0) lonAliases = some lonc →
      out.rows.length =
        (cleanRows (coerceLatLon parseNum (renameCols df0) latc lonc)).rows.length := by
  cases hlat : findCol (renameCols df0) latAliases with
  | none => simp [normalize_columns, hlat] at hok
  | some latc =>
    cases hlon : findCol (renameCols df0) lonAliases with
    | none => simp [normalize_columns, hlat, hlon] at hok
    | some lonc =>
      have hdup : hasDupLabel (renameCols df0) latc lonc = false := by
        cases hd : hasDupLabel (renameCols df0) latc lonc
        · rfl
        · exfalso
          simp [normalize_columns, hlat, hlon, hd] at hok
      simp only [normalize_columns, hlat, hlon, hdup, Bool.false_eq_true, if_false,
        Except.ok.injEq] at hok
      subst hok
      have hwfR : (renameCols df0).WF := wf_renameCols hwf
      have hwfC : (coerceLatLon parseNum (renameCols df0) latc lonc).WF :=
        wf_coerceLatLon parseNum hwfR
      have hwfK : (cleanRows (coerceLatLon parseNum (renameCols df0) latc lonc)).WF :=
        wf_cleanRows hwfC
      have hwfA1 : (addName (cleanRows (coerceLatLon parseNum (renameCols df0) latc lonc))).WF :=
        wf_addName hwfK
      have hidC : "id" ∉ (coerceLatLon parseNum (renameCols df0) latc lonc).cols := by
        intro h
        simp only [coerceLatLon] at h
        rcases mem_cols_setColumn_elim h with h2 | h2
        · rcases mem_cols_setColumn_elim h2 with h3 | h3
          · exact hid h3
          · exact absurd h3 (by decide)
        · exact absurd h2 (by decide)
      have hidK : "id" ∉ (cleanRows (coerceLatLon parseNum (renameCols df0) latc lonc)).cols := by
        rw [cols_cleanRows]
        exact hidC
      have hidA1 :
          "id" ∉ (addName (cleanRows (coerceLatLon parseNum (renameCols df0) latc lonc))).cols := by
        unfold addName
        split
        · exact hidK
        · intro h
          rcases mem_cols_setColumn_elim h with h2 | h2
          · exact hidK h2
          · exact absurd h2 (by decide)
      have hA : addId (addName (cleanRows (coerceLatLon parseNum (renameCols df0) latc lonc))) =
          setColumn (addName (cleanRows (coerceLatLon parseNum (renameCols df0) latc lonc))) "id"
            ((List.range (addName (cleanRows
              (coerceLatLon parseNum (renameCols df0) latc lonc))).rows.length).map
                (fun n : ℕ => Value.num ((n : ℚ) + 1))) := by
        unfold addId
        rw [if_neg hidA1]
      have hgetA : getCol (addId (addName (cleanRows
          (coerceLatLon parseNum (renameCols df0) latc lonc)))) "id" =
          (List.range (addName (cleanRows
            (coerceLatLon parseNum (renameCols df0) latc lonc))).rows.length).map
              (fun n : ℕ => Value.num ((n : ℚ) + 1)) := by
        rw [hA]
        exact getCol_setColumn_append hidA1 hwfA1 (by rw [List.length_map, List.length_range])
      have hidA : "id" ∈ (addId (addName (cleanRows
          (coerceLatLon parseNum (renameCols df0) latc lonc)))).cols := by
        rw [hA]
        exact mem_cols_setColumn_self _ _ _
      have hfront : "id" ∈ (["id", "name", "lat", "lon"]).filter
          (fun c => c ∈ (addId (addName (cleanRows
            (coerceLatLon parseNum (renameCols df0) latc lonc)))).cols) :=
        List.mem_filter.mpr ⟨by simp, by simpa using hidA⟩
      have hlenout : (reorderCols (addId (addName (cleanRows
          (coerceLatLon parseNum (renameCols df0) latc lonc))))).rows.length =
          (cleanRows (coerceLatLon parseNum (renameCols df0) latc lonc)).rows.length := by
        rw [length_rows_reorder, length_rows_addId, length_rows_addName]
      constructor
      · have hsel : getCol (reorderCols (addId (addName (cleanRows
            (coerceLatLon parseNum (renameCols df0) latc lonc))))) "id" =
            getCol (addId (addName (cleanRows
              (coerceLatLon parseNum (renameCols df0) latc lonc)))) "id" := by
          simp only [reorderCols]
          exact getCol_selectCols (List.mem_append.mpr (Or.inl hfront))
        unfold addNameId
        rw [hsel, hgetA, hlenout, length_rows_addName]
      · intro latc2 lonc2 h1 h2
        have e1 : latc2 = latc := (Option.some.inj h1).symm
        have e2 : lonc2 = lonc := (Option.some.inj h2).symm
        subst e1
        subst e2
        unfold addNameId
        exact hlenout

set_option maxHeartbeats 1000000 in
/-- C4 witness: a two-column table normalizes with ids 1..N. -/
theorem normalize_id_contiguous_witness :
    DF.WF ⟨["lat", "lon"], [[Value.num 1, Value.num 2]]⟩ ∧
    "id" ∉ (renameCols ⟨["lat", "lon"], [[Value.num 1, Value.num 2]]⟩).cols ∧
    getCol (reorderCols (addNameId (cleanRows (coerceLatLon (fun _ => none)
        (renameCols ⟨["lat", "lon"], [[Value.num 1, Value.num 2]]⟩) "lat" "lon")))) "id" =
      (List.range (reorderCols (addNameId (cleanRows (coerceLatLon (fun _ => none)
        (renameCols ⟨["lat", "lon"], [[Value.num 1, Value.num 2]]⟩)
          "lat" "lon")))).rows.length).map
        (fun n : ℕ => Value.num ((n : ℚ) + 1)) := by
  have hwf : DF.WF ⟨["lat", "lon"], [[Value.num 1, Value.num 2]]⟩ := by
    intro r hr
    rcases List.mem_singleton.mp hr with rfl
    rfl
  refine ⟨hwf, by decide, ?_⟩
  exact (normalize_id_contiguous (fun _ => none) _ _ hwf (by decide) rfl).1

/-- Membership of a column name survives `addName`. -/
theorem mem_cols_addName {df : DF} {c : String} (h : c ∈ df.cols) :
    c ∈ (addName df).cols := by
  unfold addName
  split
  · exact h
  · exact mem_cols_setColumn_of_mem _ _ h

/-- Membership of a column name survives `addId`. -/
theorem mem_cols_addId {df : DF} {c : String} (h : c ∈ df.cols) :
    c ∈ (addId df).cols := by
  unfold addId
  split
  · exact h
  · exact mem_cols_setColumn_of_mem _ _ h

/-- Rows of `addName` are input rows with all cells other than `name`
unchanged. -/
theorem cells_addName {df : DF} (hwf : df.WF) {s : List Value}
    (hs : s ∈ (addName df).rows) :
    ∃ r ∈ df.rows, ∀ c, c ≠ "name" →
      cellOfRow (addName df).cols s c = cellOfRow df.cols r c := by
  unfold addName at hs ⊢
  by_cases h1 : "name" ∈ df.cols
  · rw [if_pos h1] at hs ⊢
    exact ⟨s, hs, fun c hc => rfl⟩
  · rw [if_neg h1] at hs ⊢
    exact cellOfRow_setColumn_ne hwf hs

/-- Rows of `addId` are input rows with all cells other than `id`
unchanged. -/
theorem cells_addId {df : DF} (hwf : df.WF) {s : List Value}
    (hs : s ∈ (addId df).rows) :
    ∃ r ∈ df.rows, ∀ c, c ≠ "id" →
      cellOfRow (addId df).cols s c = cellOfRow df.cols r c := by
  unfold addId at hs ⊢
  by_cases h1 : "id" ∈ df.cols
  · rw [if_pos h1] at hs ⊢
    exact ⟨s, hs, fun c hc => rfl⟩
  · rw [if_neg h1] at hs ⊢
    exact cellOfRow_setColumn_ne hwf hs

/-- Rows of `addNameId` are input rows with all cells other than `name` and
`id` unchanged. -/
theorem cells_addNameId {df : DF} (hwf : df.WF) {s : List Value}
    (hs : s ∈ (addNameId df).rows) :
    ∃ r ∈ df.rows, ∀ c, c ≠ "name" → c ≠ "id" →
      cellOfRow (addNameId df).cols s c = cellOfRow df.cols r c := by
  unfold addNameId at hs ⊢
  obtain ⟨r2, hr2, hc2⟩ := cells_addId (wf_addName hwf) hs
  obtain ⟨r, hr, hc1⟩ := cells_addName hwf hr2
  exact ⟨r, hr, fun c hcn hci => (hc2 c hci).trans (hc1 c hcn)⟩

/-- C5: every table produced by `normalize_columns` (and the pre-seeded demo
layer) has numeric coordinates with `lat` in `[-90, 90]` and `lon` in
`[-180, 180]` in every row, and the query operations never introduce a row:
every `bbox_filter` output row is an input row, and every `within_radius`
output row agrees with an input row on every column other than the attached
`distance_m`. -/
theorem coordinate_invariant (parseNum : String → Option ℚ) (df0 out df : DF)
    (west south east north : ℚ) (lon lat radius_m : ℝ)
    (hwf : df0.WF) (hok : normalize_columns parseNum df0 = Except.ok out) :
    (∀ r ∈ out.rows,
      (∃ q, cellOfRow out.cols r "lat" = Value.num q ∧ -90 ≤ q ∧ q ≤ 90) ∧
      (∃ q, cellOfRow out.cols r "lon" = Value.num q ∧ -180 ≤ q ∧ q ≤ 180)) ∧
    (∀ r ∈ demoLayer.rows,
      (∃ q, cellOfRow demoLayer.cols r "lat" = Value.num q ∧ -90 ≤ q ∧ q ≤ 90) ∧
      (∃ q, cellOfRow demoLayer.cols r "lon" = Value.num q ∧ -180 ≤ q ∧ q ≤ 180)) ∧
    (∀ r ∈ (bbox_filter df west south east north).rows, r ∈ df.rows) ∧
    (df.WF → ∀ s ∈ (within_radius df lon lat radius_m).rows, ∃ r ∈ df.rows,
      ∀ c, c ≠ "distance_m" →
        cellOfRow (within_radius df lon lat radius_m).cols s c = cellOfRow df.cols r c) := by
  refine ⟨?_, ?_, ?_, ?_⟩
  · cases hlat : findCol (renameCols df0) latAliases with
    | none => simp [normalize_columns, hlat] at hok
    | some latc =>
      cases hlon : findCol (renameCols df0) lonAliases with
      | none => simp [normalize_columns, hlat, hlon] at hok
      | some lonc =>
        have hdup : hasDupLabel (renameCols df0) latc lonc = false := by
          cases hd : hasDupLabel (renameCols df0) latc lonc
          · rfl
          · exfalso
            simp [normalize_columns, hlat, hlon, hd] at hok
        simp only [normalize_columns, hlat, hlon, hdup, Bool.false_eq_true, if_false,
          Except.ok.injEq] at hok
        subst hok
        have hwfC : (coerceLatLon parseNum (renameCols df0) latc lonc).WF :=
          wf_coerceLatLon parseNum (wf_renameCols hwf)
        have hwfK : (cleanRows (coerceLatLon parseNum (renameCols df0) latc lonc)).WF :=
          wf_cleanRows hwfC
        have hlatA : "lat" ∈ (addNameId (cleanRows
            (coerceLatLon parseNum (renameCols df0) latc lonc))).cols := by
          unfold addNameId
          refine mem_cols_addId (mem_cols_addName ?_)
          rw [cols_cleanRows]
          exact lat_mem_cols_coerce _ parseNum _ _
        have hlonA : "lon" ∈ (addNameId (cleanRows
            (coerceLatLon parseNum (renameCols df0) latc lonc))).cols := by
          unfold addNameId
          refine mem_cols_addId (mem_cols_addName ?_)
          rw [cols_cleanRows]
          exact lon_mem_cols_coerce _ parseNum _ _
        have hlatF : "lat" ∈ (["id", "name", "lat", "lon"]).filter
            (fun c => c ∈ (addNameId (cleanRows
              (coerceLatLon parseNum (renameCols df0) latc lonc))).cols) :=
          List.mem_filter.mpr ⟨by simp, by simpa using hlatA⟩
        have hlonF : "lon" ∈ (["id", "name", "lat", "lon"]).filter
            (fun c => c ∈ (addNameId (cleanRows
              (coerceLatLon parseNum (renameCols df0) latc lonc))).cols) :=
          List.mem_filter.mpr ⟨by simp, by simpa using hlonA⟩
        simp only [reorderCols, selectCols]
        intro r' hr'
        rw [List.mem_map] at hr'
        obtain ⟨r2, hr2, rfl⟩ := hr'
        rw [cellOfRow_map_self _ (List.mem_append.mpr (Or.inl hlatF)),
          cellOfRow_map_self _ (List.mem_append.mpr (Or.inl hlonF))]
        obtain ⟨r3, hr3, hcells⟩ := cells_addNameId hwfK hr2
        rw [hcells "lat" (by decide) (by decide), hcells "lon" (by decide) (by decide)]
        rw [cols_cleanRows]
        obtain ⟨_, hbl, hbo⟩ := mem_rows_cleanRows hr3
        obtain ⟨q1, he1, hq1a, hq1b⟩ := vbetween_iff.mp hbl
        obtain ⟨q2, he2, hq2a, hq2b⟩ := vbetween_iff.mp hbo
        exact ⟨⟨q1, he1, hq1a, hq1b⟩, ⟨q2, he2, hq2a, hq2b⟩⟩
  · intro r hr
    rcases List.mem_singleton.mp hr with rfl
    refine ⟨⟨373353 / 10000, rfl, by norm_num, by norm_num⟩,
      ⟨-1218813 / 10000, rfl, by norm_num, by norm_num⟩⟩
  · intro r hr
    unfold bbox_filter at hr
    by_cases hew : east < west
    · rw [if_pos hew] at hr
      rcases List.mem_append.mp hr with h | h
      · exact (List.mem_filter.mp h).1
      · exact (List.mem_filter.mp h).1
    · rw [if_neg hew] at hr
      exact (List.mem_filter.mp hr).1
  · intro hwfdf s hs
    simp only [within_radius] at hs ⊢
    rw [List.mem_insertionSort] at hs
    exact cellOfRow_setColumn_ne hwfdf (List.mem_filter.mp hs).1

/-- C5 witness: a concrete normalized table and a concrete bbox query. -/
theorem coordinate_invariant_witness :
    DF.WF ⟨["lat", "lon"], [[Value.num 1, Value.num 2]]⟩ ∧
    ∀ r ∈ (bbox_filter demoLayer 0 0 1 1).rows, r ∈ demoLayer.rows := by
  have hwf : DF.WF ⟨["lat", "lon"], [[Value.num 1, Value.num 2]]⟩ := by
    intro r hr
    rcases List.mem_singleton.mp hr with rfl
    rfl
  exact ⟨hwf, (coordinate_invariant (fun _ => none)
    ⟨["lat", "lon"], [[Value.num 1, Value.num 2]]⟩ _ demoLayer 0 0 1 1 0 0 0
    hwf rfl).2.2.1⟩

/-- Looking up a key in a self-keyed association list built by mapping. -/
theorem lookup_map_self (g : String → Option Value) :
    ∀ (names : List String) (c : String), c ∈ names →
      List.lookup c (names.map (fun x => (x, g x))) = some (g c) := by
  intro names
  induction names with
  | nil => intro c h; simp at h
  | cons a names ih =>
    intro c h
    by_cases hac : c = a
    · subst hac
      simp [List.lookup]
    · have hbeq : (c == a) = false := beq_eq_false_iff_ne.mpr hac
      have hc : c ∈ names := by
        rcases List.mem_cons.mp h with h1 | h1
        · exact absurd h1 hac
        · exact h1
      simp [List.lookup, hbeq, ih _ hc]

/-- C8: `df_to_geojson` emits one feature per (possibly limit-capped) row;
the feature properties carry exactly the non-coordinate columns, and a
missing cell is emitted as a null property value — the key is never omitted
and the value is the cell itself when present, never a sentinel. -/
theorem geojson_missing_as_null (df : DF) (limit : Option Nat) :
    (df_to_geojson df limit).length =
      limit.elim df.rows.length (fun l => min l df.rows.length) ∧
    ∀ (i : ℕ) (r : List Value), (headRows df limit)[i]? = some r →
      ∃ f : Feature, (df_to_geojson df limit)[i]? = some f ∧
        f.properties.map Prod.fst =
          df.cols.filter (fun c => c ∉ (["lat", "lon"] : List String)) ∧
        ∀ c ∈ df.cols, c ≠ "lat" → c ≠ "lon" →
          List.lookup c f.properties =
            some (if (cellOfRow df.cols r c).isMissing = true then none
              else some (cellOfRow df.cols r c)) := by
  constructor
  · cases limit with
    | none => simp [df_to_geojson, headRows]
    | some l => simp [df_to_geojson, headRows]
  · intro i r hir
    have hf : (df_to_geojson df limit)[i]? = some (featureOfRow df.cols
        (df.cols.filter (fun c => c ∉ (["lat", "lon"] : List String))) r) := by
      simp only [df_to_geojson, List.getElem?_map]
      rw [hir]
      rfl
    refine ⟨_, hf, ?_, ?_⟩
    · simp only [featureOfRow, List.map_map]
      exact List.map_id' _
    · intro c hcmem hclat hclon
      have hcprops : c ∈ df.cols.filter (fun c => c ∉ (["lat", "lon"] : List String)) :=
        List.mem_filter.mpr ⟨hcmem, by simp [hclat, hclon]⟩
      exact lookup_map_self _ _ c hcprops

/-- C8 witness: the demo layer row yields a feature whose property list
keys are the non-coordinate columns. -/
theorem geojson_missing_as_null_witness :
    ∃ f : Feature, (df_to_geojson demoLayer none)[0]? = some f ∧
      f.properties.map Prod.fst =
        demoLayer.cols.filter (fun c => c ∉ (["lat", "lon"] : List String)) ∧
      ∀ c ∈ demoLayer.cols, c ≠ "lat" → c ≠ "lon" →
        List.lookup c f.properties =
          some (if (cellOfRow demoLayer.cols
              [Value.num 1, Value.str "SJSU", Value.num (373353 / 10000),
                Value.num (-1218813 / 10000)] c).isMissing = true then none
            else some (cellOfRow demoLayer.cols
              [Value.num 1, Value.str "SJSU", Value.num (373353 / 10000),
                Value.num (-1218813 / 10000)] c)) :=
  (geojson_missing_as_null demoLayer none).2 0
    [Value.num 1, Value.str "SJSU", Value.num (373353 / 10000),
      Value.num (-1218813 / 10000)] rfl

/-- Attaching the `distance_m` column to a canonical table appends the
column, extends each row with its computed distance, and the `distance_m`
reading of an extended row is that distance. -/
theorem within_radius_reduce (df : DF) (lon lat : ℝ)
    (hwf : df.WF) (hdm : "distance_m" ∉ df.cols) :
    (setColumn df "distance_m"
        ((df.rows.map (fun r => rowDistance df lon lat r)).map Value.real)).cols =
      df.cols ++ ["distance_m"] ∧
    (setColumn df "distance_m"
        ((df.rows.map (fun r => rowDistance df lon lat r)).map Value.real)).rows =
      df.rows.map (fun r => r ++ [Value.real (rowDistance df lon lat r)]) ∧
    ∀ r ∈ df.rows, ∀ x : ℝ,
      distKey (df.cols ++ ["distance_m"]) (r ++ [Value.real x]) = x := by
  have hnone : colIdx df.cols "distance_m" = none := colIdx_eq_none.mpr hdm
  refine ⟨?_, ?_, ?_⟩
  · simp [setColumn, hnone]
  · simp only [setColumn, hnone]
    rw [List.map_map]
    exact zipWith_map_right_self _ _ df.rows
  · intro r hr x
    have hlen : r.length = df.cols.length := hwf r hr
    simp only [distKey, cellOfRow, colIdx_append_self hdm]
    rw [List.getD_eq_getElem?_getD, ← hlen, List.getElem?_concat_length]
    rfl

/-- C1, in the stable-sort semantics the specification prescribes: on every
canonical table, `within_radius` returns exactly the rows whose haversine
distance to the query point is at most `radius_m` (inclusive boundary), each
extended with a `distance_m` column; the result is sorted ascending by
`distance_m`, and the rows of any fixed distance appear in their original
table order.  The program's `sort_values` default `kind='quicksort'` does
not guarantee the tie-order conjunct (see the `within_radius` doc comment);
the remaining conjuncts are insensitive to the tie order. -/
theorem within_radius_correct (df : DF) (lon lat radius_m : ℝ) (hc : Canonical df) :
    (within_radius df lon lat radius_m).cols = df.cols ++ ["distance_m"] ∧
    List.Perm (within_radius df lon lat radius_m).rows
      ((df.rows.filter (fun r => decide (rowDistance df lon lat r ≤ radius_m))).map
        (fun r => r ++ [Value.real (rowDistance df lon lat r)])) ∧
    List.Pairwise (fun a b => distKey (df.cols ++ ["distance_m"]) a ≤
        distKey (df.cols ++ ["distance_m"]) b)
      (within_radius df lon lat radius_m).rows ∧
    ∀ c : ℝ, (within_radius df lon lat radius_m).rows.filter
        (fun s => decide (distKey (df.cols ++ ["distance_m"]) s = c)) =
      (df.rows.filter (fun r =>
          decide (rowDistance df lon lat r ≤ radius_m) &&
            decide (rowDistance df lon lat r = c))).map
        (fun r => r ++ [Value.real (rowDistance df lon lat r)]) := by
  obtain ⟨hwf, hlatm, hlonm, hdm, hvalid⟩ := hc
  obtain ⟨hcols, hrows, hkey⟩ := within_radius_reduce df lon lat hwf hdm
  have hwr : within_radius df lon lat radius_m =
      { cols := df.cols ++ ["distance_m"],
        rows := List.insertionSort
          (fun a b => distKey (df.cols ++ ["distance_m"]) a ≤
            distKey (df.cols ++ ["distance_m"]) b)
          ((df.rows.map (fun r => r ++ [Value.real (rowDistance df lon lat r)])).filter
            (fun s => decide (distKey (df.cols ++ ["distance_m"]) s ≤ radius_m))) } := by
    simp only [within_radius]
    rw [hcols, hrows]
  have hfilt : (df.rows.map (fun r => r ++ [Value.real (rowDistance df lon lat r)])).filter
      (fun s => decide (distKey (df.cols ++ ["distance_m"]) s ≤ radius_m)) =
      (df.rows.filter (fun r => decide (rowDistance df lon lat r ≤ radius_m))).map
        (fun r => r ++ [Value.real (rowDistance df lon lat r)]) := by
    rw [List.filter_map]
    refine congrArg _ (List.filter_congr ?_)
    intro r hr
    simp only [Function.comp]
    rw [hkey r hr]
  refine ⟨?_, ?_, ?_, ?_⟩
  · rw [hwr]
  · rw [hwr]
    simp only
    rw [hfilt]
    exact List.perm_insertionSort _ _
  · rw [hwr]
    exact pairwise_insertionSort_key (distKey (df.cols ++ ["distance_m"])) _
  · intro c
    rw [hwr]
    simp only
    rw [hfilt, filter_insertionSort_eqKey, List.filter_map]
    refine congrArg _ ?_
    rw [List.filter_filter]
    refine List.filter_congr ?_
    intro r hr
    simp only [Function.comp]
    rw [hkey r hr]
    exact Bool.and_comm _ _

/-- C1 witness: the demo layer is canonical, and a concrete query carries
the appended `distance_m` column. -/
theorem within_radius_correct_witness :
    Canonical demoLayer ∧
      (within_radius demoLayer 0 0 0).cols = demoLayer.cols ++ ["distance_m"] := by
  have hc : Canonical demoLayer := by
    refine ⟨?_, by decide, by decide, by decide, ?_⟩
    · intro r hr
      rcases List.mem_singleton.mp hr with rfl
      rfl
    · intro r hr
      rcases List.mem_singleton.mp hr with rfl
      constructor
      · show vbetween (Value.num (373353 / 10000)) (-90) 90 = true
        simp only [vbetween, decide_eq_true_eq]
        norm_num
      · show vbetween (Value.num (-1218813 / 10000)) (-180) 180 = true
        simp only [vbetween, decide_eq_true_eq]
        norm_num
  exact ⟨hc, (within_radius_correct demoLayer 0 0 0 hc).1⟩

/-- C3 witness: a wrapped box at a concrete input. -/
theorem bbox_filter_wraparound_witness :
    (-170 : ℚ) < 170 ∧ (bbox_filter demoLayer 170 (-90) (-170) 90).cols = demoLayer.cols :=
  ⟨by norm_num, (bbox_filter_wraparound demoLayer 170 (-90) (-170) 90 (by norm_num)).1⟩

/-- C7 witness: `steps = 8` yields 9 coordinates. -/
theorem circle_polygon_ring_witness :
    3 ≤ 8 ∧ (circle_polygon 0 0 100 8).length = 8 + 1 :=
  ⟨by norm_num, (circle_polygon_ring 0 0 100 8 (by norm_num)).1⟩

end App
